import Mathlib

/-!
Verification development for the mutable-element repository.

The repository core manipulates a live DOM tree through a span abstraction
(DynamicRange, src/range.ts and a second copy of the class in the unnamed
source part_001), a recursive value resolver (mutate in src/mutable.ts and
mutateRange in the unnamed part_002), and a keyed-list reconciler
(list/assignData/appendData/appendUnique in part_002).

Shallow embedding used throughout: all the code under study mutates a single
flat sequence of sibling nodes (the children of the parent that holds the
markers of the spans involved), so the ambient DOM is modelled as a list of
nodes, `List DN`, in document order.  Each DOM node is identified by its
constructor payload, so node identity is value identity of `DN`.  The ambient
DOM primitives called by the source (insertBefore, removeChild, nextSibling,
Range.deleteContents, Range.intersectsNode) are modelled as list functions;
the well-formed states exercised by the claims keep every node at most once
in the list, which matches the real DOM where a node has at most one parent
and one position.
-/

/-- A DOM node of the flat sibling model.  startM/endM are the comment marker
nodes created for a span with numeric identity sid (namedRange creates one
start and one end comment per span); elemN is any rendered element node;
textN a text node with its character data. -/
inductive DN : Type where
  | startM : Nat → DN
  | endM : Nat → DN
  | elemN : Nat → DN
  | textN : String → DN
deriving DecidableEq

/-- Model of node.nextSibling: the node that follows the first occurrence of
x in the sibling list, none when x is absent or last (parent-less or
tail nodes have a null nextSibling). -/
def nextSibling : List DN → DN → Option DN
  | [], _ => none
  | a :: rest, x => if a = x then rest.head? else nextSibling rest x

/-- Model of parent.insertBefore(new nodes, ref): splice the nodes immediately
before the first occurrence of ref.  When ref is not a child the DOM throws;
every call site the claims exercise has ref present, and the model leaves the
list unchanged in that unreachable case. -/
def insertBeforeL (dom : List DN) (new : List DN) (ref : DN) : List DN :=
  match dom with
  | [] => []
  | a :: l => if a = ref then new ++ a :: l else a :: insertBeforeL l new ref

/-- Index of the first occurrence of x (the position used by Range boundary
computations); returns the length when x is absent. -/
def idxOf : List DN → DN → Nat
  | [], _ => 0
  | a :: l, x => if a = x then 0 else idxOf l x + 1

/-- Replace the first occurrence of x by n (parent.replaceChild(n, x)). -/
def replaceFirst : List DN → DN → DN → List DN
  | [], _, _ => []
  | a :: l, x, n => if a = x then n :: l else a :: replaceFirst l x n

/-- The span abstraction of src/range.ts: two marker nodes.  The source field
name end is a Lean keyword, hence endMark. -/
structure DynamicRange where
  start : DN
  endMark : DN
deriving DecidableEq

/-- parentNode of the span is the parent of its start marker; in the
single-parent model the span has a parent exactly when its start marker is in
the sibling list. -/
def attached (dom : List DN) (r : DynamicRange) : Prop := r.start ∈ dom

instance (dom : List DN) (r : DynamicRange) : Decidable (attached dom r) := by
  unfold attached; infer_instance

/-- The get static Range of the span covers the boundary interval from just
after start to just before end; Range.deleteContents hence removes exactly the
nodes strictly between the two markers.  Translated from
range.setStartAfter(start); range.setEndBefore(end); deleteContents(). -/
def rangeDeleteContents (dom : List DN) (r : DynamicRange) : List DN :=
  dom.take (idxOf dom r.start + 1) ++ dom.drop (idxOf dom r.endMark)

/-- The nodes strictly between the two markers, in document order.  This is
the specification-side description of the span contents (spec section 8,
span containment invariant) used to compare against the walking
implementations below; it is also the set of nodes for which the DOM
Range.intersectsNode test of the static range answers true, which is how the
insertBefore guard consults it. -/
def nodesBetween (dom : List DN) (r : DynamicRange) : List DN :=
  ((dom.dropWhile (· != r.start)).drop 1).takeWhile (· != r.endMark)

/-- DynamicRange.firstChild of src/range.ts:
first = start.nextSibling; return first === end ? null : first. -/
def firstChild (dom : List DN) (r : DynamicRange) : Option DN :=
  let first := nextSibling dom r.start
  if first = some r.endMark then none else first

/-- DynamicRange.firstChild of the variant copy in the unnamed part_001:
first = start.nextSibling; return first === end ? first : null.
The two branches of the conditional are swapped relative to src/range.ts. -/
def firstChildV (dom : List DN) (r : DynamicRange) : Option DN :=
  let first := nextSibling dom r.start
  if first = some r.endMark then first else none

/-- Loop body of DynamicRange.childNodes of src/range.ts: repeatedly step
current = current.nextSibling, stop at the end marker, collect everything
passed.  The source dereferences nextSibling with a non-null assertion, so the
walk only makes sense while a next sibling exists; the fuel argument bounds
the walk by the list length, which is enough for every attached well-formed
span, and the none branch (a null dereference in the source) returns the
nodes collected so far. -/
def childNodesAux (dom : List DN) (e : DN) : Nat → DN → List DN
  | 0, _ => []
  | fuel + 1, current =>
    match nextSibling dom current with
    | none => []
    | some nxt => if nxt = e then [] else nxt :: childNodesAux dom e fuel nxt

/-- DynamicRange.childNodes of src/range.ts (the marker-to-marker walk). -/
def childNodes (dom : List DN) (r : DynamicRange) : List DN :=
  childNodesAux dom r.endMark (dom.length + 1) r.start

/-- DynamicRange.childNodes of the variant copy in the unnamed part_001: the
loop breaks unconditionally after its first iteration, so it collects at most
the single node right after start (as an Option, since the source would push
the null nextSibling of a detached start).
current = start.nextSibling; if current !== end push current; break. -/
def childNodesV (dom : List DN) (r : DynamicRange) : List (Option DN) :=
  let current := nextSibling dom r.start
  if current = some r.endMark then [] else [current]

/-- DynamicRange.insertBefore(node, child): no-op without a parent; with a
reference child, insert only if the child belongs to the same parent and the
static range intersects it (strictly-between-the-markers containment);
without a reference child, insert immediately before the end marker. -/
def insertBeforeOp (dom : List DN) (r : DynamicRange) (node : DN) (child : Option DN) :
    List DN :=
  if attached dom r then
    match child with
    | some c =>
      if c ∈ dom ∧ c ∈ nodesBetween dom r then insertBeforeL dom [node] c else dom
    | none => insertBeforeL dom [node] r.endMark
  else dom

/-- DynamicRange.appendChild(node): parentNode?.insertBefore?.(node, end),
a no-op through optional chaining when the span has no parent. -/
def appendChildOp (dom : List DN) (r : DynamicRange) (node : DN) : List DN :=
  if attached dom r then insertBeforeL dom [node] r.endMark else dom

/-- DynamicRange.replace(node): no-op without a parent; otherwise delete the
span contents, remove the start marker and replace the end marker by node. -/
def replaceOp (dom : List DN) (r : DynamicRange) (node : DN) : List DN :=
  if attached dom r then
    replaceFirst ((rangeDeleteContents dom r).erase r.start) r.endMark node
  else dom

/-- DynamicRange.delete(): no-op without a parent; otherwise delete the span
contents and remove both markers. -/
def deleteOp (dom : List DN) (r : DynamicRange) : List DN :=
  if attached dom r then
    ((rangeDeleteContents dom r).erase r.start).erase r.endMark
  else dom

/-- The do-while loop of DynamicRange.detach().  The source has no parent
guard: it reads const next = current.nextSibling! before moving current into
the fragment, removes current from the parent when there is one, and loops
while current is not the end marker.  A step whose current node is null (the
source arrives there by walking past a node without a next sibling, which is
exactly the state of a parent-less span) dereferences null and throws a
TypeError; the model returns none for that crash.  Fuel only bounds the walk
and is chosen large enough for every reachable state. -/
def detachAux (e : DN) : Nat → List DN → Option DN → List DN → Option (List DN × List DN)
  | 0, _, _, _ => none
  | _ + 1, _, none, _ => none
  | fuel + 1, dom, some c, frag =>
    let nxt := nextSibling dom c
    let frag1 := frag ++ [c]
    let dom1 := dom.erase c
    if nxt = some e then some (frag1 ++ [e], dom1.erase e)
    else detachAux e fuel dom1 nxt frag1

/-- DynamicRange.detach(): walk from the start marker to the end marker,
moving every node into a fresh fragment.  Returns (fragment children,
remaining siblings), or none when the walk dereferences a null sibling
(the TypeError raised by the source on a parent-less span). -/
def detachR (dom : List DN) (r : DynamicRange) : Option (List DN × List DN) :=
  detachAux r.endMark (dom.length + 2) dom (some r.start) []

/-!
The keyed-list reconciler of the unnamed part_002 (function list).  Values are
modelled by an arbitrary type V with decidable equality: JavaScript reference
equality of the stored values (the item !== found.value tests) is value
equality of V.  The renderer capability is modelled by its key extractor and
by whether it supplies the optional incremental update function; the render
and update outputs are consumed asynchronously by mutateRange after the
synchronous reconciliation step finishes, so they contribute no synchronous
DOM mutation and are not part of the reconciler state transition.  Invocations
of renderer.update are recorded in an event list together with the identity of
the span they are resolved against and the (new, old) value pair.
-/

/-- A list Item Record (the Packed objects of part_002): the identity of the
span rendering the value, paired with the stored value.  Span identity is the
sid baked into its two marker nodes; a fresh namedRange call always uses a
fresh sid, so identical sids mean the very same Span object. -/
structure Pack (V : Type) where
  rangeId : Nat
  value : V
deriving DecidableEq

/-- The synchronous state of one reconciled list: the record sequence data,
the flat sibling list that holds the root markers and every item span, the
next fresh span identity, and the log of renderer.update invocations
(span identity, new value, old value). -/
structure ListState (V : Type) where
  data : List (Pack V)
  dom : List DN
  nextId : Nat
  updates : List (Nat × V × V)
deriving DecidableEq

/-- The renderer capability as the reconciler consumes it synchronously:
extractKey, and whether the optional update function is supplied. -/
structure RendererM (V K : Type) where
  key : V → K
  hasUpdate : Bool

/-- The root span markers: the namedRange created by list() itself, modelled
with the reserved span identity 0. -/
def rootStart : DN := DN.startM 0

/-- The end marker of the root span (root.end in part_002). -/
def rootEnd : DN := DN.endM 0

/-- The record sequence starts empty, the parent fragment holds exactly the
two root markers, span identities for items start at 1. -/
def initState (V : Type) : ListState V := ⟨[], [rootStart, rootEnd], 1, []⟩

/-- The linear scan loop of assignData: starting at index i, find the first
record whose key equals k; returns the index together with the record.
for (; originIdx < data.length; originIdx++)
  if (extractKey(data[originIdx].value) === extractKey(item)) break. -/
def scanData {V K : Type} [DecidableEq K] (keyOf : V → K) (k : K) :
    List (Pack V) → Nat → Option (Nat × Pack V)
  | [], _ => none
  | p :: rest, i => if keyOf p.value = k then some (i, p) else scanData keyOf k rest (i + 1)

/-- The pivot expression of assignData:
inputIdx < data.length ? data[inputIdx].range.start : root.end. -/
def pivotOf {V : Type} (s : ListState V) (i : Nat) : DN :=
  match s.data.get? i with
  | some p => DN.startM p.rangeId
  | none => rootEnd

/-- insertAt of part_002: namedRange mints a fresh pair of markers (a fresh
span), the fragment holding them is inserted before point, and the render
output is resolved into the span asynchronously (hence no synchronous
children).  Returns the new state and the identity of the created span. -/
def insertAtM {V : Type} (s : ListState V) (point : DN) : ListState V × Nat :=
  (⟨s.data, insertBeforeL s.dom [DN.startM s.nextId, DN.endM s.nextId] point,
    s.nextId + 1, s.updates⟩, s.nextId)

/-- Array.prototype.splice(i, 0, ...xs): insert xs at index i. -/
def insIdxAll {α : Type} (l : List α) (i : Nat) (xs : List α) : List α :=
  l.take i ++ xs ++ l.drop i

/-- The contiguous dom segment of the span with identity sid: its start
marker through its end marker inclusive. -/
def takeThrough (x : DN) : List DN → List DN
  | [] => []
  | a :: l => if a = x then [a] else a :: takeThrough x l

/-- Drop everything up to and including the first occurrence of x. -/
def dropThrough (x : DN) : List DN → List DN
  | [] => []
  | a :: l => if a = x then l else dropThrough x l

/-- The nodes a span owns in the flat sibling list: start marker through end
marker, in order.  For an attached well-formed span this is exactly what
DynamicRange.detach packages into its fragment. -/
def spanSeg (dom : List DN) (sid : Nat) : List DN :=
  takeThrough (DN.endM sid) (dom.dropWhile (· != DN.startM sid))

/-- Remove a whole span (markers and contents) from the sibling list: the
effect of range.delete() on an attached well-formed span, and the removal
half of a relocation detach. -/
def removeSpan (dom : List DN) (sid : Nat) : List DN :=
  dom.takeWhile (· != DN.startM sid) ++ dropThrough (DN.endM sid) (dom.dropWhile (· != DN.startM sid))

/-- The relocation move of assignData:
const cached = found.range.detach(); pivot.parentNode!.insertBefore(cached, pivot).
Within assignData the moved span is attached and well formed, so detach is
total there and amounts to cutting out the span segment; the cut segment is
reinserted immediately before the pivot node. -/
def relocate {V : Type} (s : ListState V) (sid : Nat) (pivot : DN) : ListState V :=
  ⟨s.data, insertBeforeL (removeSpan s.dom sid) (spanSeg s.dom sid) pivot,
   s.nextId, s.updates⟩

/-- replace of part_002: mint a new span before point (insertAt), delete the
old span of the record, store the new value and the new span in the record at
index idx.  The record object mutated in the source is the one the caller has
already placed at index idx. -/
def replacePack {V : Type} (s : ListState V) (idx : Nat) (found : Pack V) (item : V)
    (point : DN) : ListState V :=
  let sid := s.nextId
  let dom1 := insertBeforeL s.dom [DN.startM sid, DN.endM sid] point
  ⟨s.data.set idx ⟨sid, item⟩, removeSpan dom1 found.rangeId, sid + 1, s.updates⟩

/-- One iteration of the outer loop of assignData, for the target value item
at index inputIdx.  Mirrors part_002 lines 380 to 433: scan the current
records from inputIdx for the key of item; on a same-index hit with a changed
value either invoke renderer.update against the record own span or replace in
place; on a later-index hit splice the record to inputIdx, apply the
update-or-replace rule, and (except in the replace case, which continues the
loop) detach the span and reinsert it before the span previously at inputIdx;
on a miss create a fresh record and span at inputIdx. -/
def assignIter {V K : Type} [DecidableEq V] [DecidableEq K] (R : RendererM V K)
    (inputIdx : Nat) (item : V) (s : ListState V) : ListState V :=
  match scanData R.key (R.key item) (s.data.drop inputIdx) inputIdx with
  | some (originIdx, found) =>
    if originIdx = inputIdx then
      if item = found.value then s
      else if R.hasUpdate then
        ⟨s.data.set originIdx ⟨found.rangeId, item⟩, s.dom, s.nextId,
         s.updates ++ [(found.rangeId, item, found.value)]⟩
      else replacePack s originIdx found item (DN.startM found.rangeId)
    else
      let pivot := pivotOf s inputIdx
      let data1 := insIdxAll (s.data.eraseIdx originIdx) inputIdx [found]
      if item = found.value then
        relocate ⟨data1, s.dom, s.nextId, s.updates⟩ found.rangeId pivot
      else if R.hasUpdate then
        relocate ⟨data1.set inputIdx ⟨found.rangeId, item⟩, s.dom, s.nextId,
                  s.updates ++ [(found.rangeId, item, found.value)]⟩ found.rangeId pivot
      else replacePack ⟨data1, s.dom, s.nextId, s.updates⟩ inputIdx found item pivot
  | none =>
    let pivot := pivotOf s inputIdx
    let (s1, sid) := insertAtM s pivot
    ⟨insIdxAll s1.data inputIdx [⟨sid, item⟩], s1.dom, s1.nextId, s1.updates⟩

/-- delete every span of the given records from the sibling list (the
trailing cleanup loop of assignData; each range is attached and well formed
there, so range.delete() removes its whole segment). -/
def deleteSpans {V : Type} : List (Pack V) → List DN → List DN
  | [], dom => dom
  | p :: rest, dom => deleteSpans rest (removeSpan dom p.rangeId)

/-- The outer loop of assignData: process the target values left to right at
increasing input indices, then splice off and delete every record beyond the
target length. -/
def assignLoop {V K : Type} [DecidableEq V] [DecidableEq K] (R : RendererM V K) :
    List V → Nat → ListState V → ListState V
  | [], inputIdx, s =>
    ⟨s.data.take inputIdx, deleteSpans (s.data.drop inputIdx) s.dom, s.nextId, s.updates⟩
  | item :: rest, inputIdx, s => assignLoop R rest (inputIdx + 1) (assignIter R inputIdx item s)

/-- assignData of part_002. -/
def assignData {V K : Type} [DecidableEq V] [DecidableEq K] (R : RendererM V K)
    (value : List V) (s : ListState V) : ListState V :=
  assignLoop R value 0 s

/-- The tail loop of appendData: insert each value before the root end
marker, pushing the records at the end of data. -/
def appendTail {V : Type} (s : ListState V) : List V → ListState V
  | [] => s
  | item :: rest =>
    let (s1, sid) := insertAtM s rootEnd
    appendTail ⟨s1.data ++ [⟨sid, item⟩], s1.dom, s1.nextId, s1.updates⟩ rest

/-- The anchored block insertion of appendData: insert each value before the
pivot (the start of the record after the anchor, or the root end), collecting
the new records, which are then spliced in after the anchor index. -/
def insertBlock {V : Type} (s : ListState V) (pivot : DN) :
    List V → ListState V × List (Pack V)
  | [] => (s, [])
  | item :: rest =>
    let (s1, sid) := insertAtM s pivot
    let (s2, packs) := insertBlock s1 pivot rest
    (s2, ⟨sid, item⟩ :: packs)

/-- appendData of part_002: with an anchor key that is found, insert the new
records as a block right after it; otherwise (no anchor, or anchor missing)
append at the tail. -/
def appendData {V K : Type} [DecidableEq K] (R : RendererM V K) (s : ListState V)
    (value : List V) (ref : Option K) : ListState V :=
  match ref with
  | some k =>
    match scanData R.key k s.data 0 with
    | some (idx, _) =>
      let pivot := match s.data.get? (idx + 1) with
        | some p => DN.startM p.rangeId
        | none => rootEnd
      let (s2, packs) := insertBlock s pivot value
      ⟨insIdxAll s2.data (idx + 1) packs, s2.dom, s2.nextId, s2.updates⟩
    | none => appendTail s value
  | none => appendTail s value

/-- appendUnique of part_002: pre-filter the incoming values, keeping those
whose key differs from the key of every currently held record, then delegate
to appendData without an anchor. -/
def appendUnique {V K : Type} [DecidableEq K] (R : RendererM V K) (value : List V)
    (s : ListState V) : ListState V :=
  appendData R s
    (value.filter fun x => s.data.all fun y => decide (R.key y.value ≠ R.key x)) none

/-- A renderer whose key is the value itself and that supplies no update
function (used for the keyed scenarios where values are their own keys). -/
def idRenderer : RendererM Nat Nat := ⟨fun v => v, false⟩

/-- A renderer whose key is the tens digit of the value and that supplies an
update function, so values 10 and 11 share a key but differ as references. -/
def divRenderer : RendererM Nat Nat := ⟨fun v => v / 10, true⟩

/-- The records the appendData tail loop creates for the given values when
span identities are minted starting at n. -/
def packsFrom {V : Type} (n : Nat) : List V → List (Pack V)
  | [] => []
  | v :: rest => ⟨n, v⟩ :: packsFrom (n + 1) rest

/-!
The value resolver: mutate of src/mutable.ts (plain node target) and
mutateRange of the unnamed part_002 (span target).  A renderable JavaScript
value can satisfy several of the duck-typed shapes at once (an object may be
iterable, async iterable, thenable and callable simultaneously), so values
are modelled by a tree where the object constructor carries each optional
capability: a synchronous sequence, an asynchronous sequence, a thenable
settling to a value (the then member being callable where the two sources
test it), and a callable returning a value.  Suspension is invisible to the
single-target state: awaiting preserves the sequential order of mutations
within one resolution chain, so the model threads the state directly.  The
invocation of a user-supplied function (the callable branch) is an observable
effect and is recorded in the event list, as is the console.error diagnostic
of the fallthrough branch.
-/

/-- A renderable value shape: null or undefined; a boolean; a DOM node; a
text-like primitive (string, number and bigint carried as their string
rendering); or an object with its optional iterable, async iterable,
thenable and callable capabilities, tested in that order by both sources. -/
inductive RVal : Type where
  | nullV : RVal
  | boolV : Bool → RVal
  | nodeV : Nat → RVal
  | primV : String → RVal
  | objV : Option (List RVal) → Option (List RVal) → Option RVal → Option RVal → RVal

/-- Observable events of a resolution: the invocation of a user callable
(the function branch applies ret.call(target, target)) and the console.error
diagnostic for an unrecognized value. -/
inductive Ev : Type where
  | invoked : Ev
  | errLog : Ev
deriving DecidableEq

/-- A plain node target: its child list and the event log. -/
structure NState where
  children : List DN
  events : List Ev
deriving DecidableEq

/-- target.textContent = s: every existing child is dropped and the whole
content becomes the single text node holding s (none at all for the empty
string, per DOM textContent assignment). -/
def setTextContent (s : String) : List DN :=
  if s = "" then [] else [DN.textN s]

mutual
/-- mutate of src/mutable.ts, dispatching on the value shape in source order:
null and booleans do nothing; a node is appended; a primitive replaces the
whole text content; an iterable is resolved element by element in order; an
async iterable likewise; a thenable is awaited and its result resolved; a
callable is invoked with the target and its result resolved; anything else
logs a diagnostic and stops. -/
def mutate (st : NState) : RVal → NState
  | .nullV => st
  | .boolV _ => st
  | .nodeV n => ⟨st.children ++ [DN.elemN n], st.events⟩
  | .primV s => ⟨setTextContent s, st.events⟩
  | .objV (some l) _ _ _ => mutateList st l
  | .objV none (some l) _ _ => mutateList st l
  | .objV none none (some v) _ => mutate st v
  | .objV none none none (some f) => mutate ⟨st.children, st.events ++ [Ev.invoked]⟩ f
  | .objV none none none none => ⟨st.children, st.events ++ [Ev.errLog]⟩

/-- The for-of loop bodies of mutate: each element fully resolved (awaited)
before the next begins. -/
def mutateList (st : NState) : List RVal → NState
  | [] => st
  | v :: rest => mutateList (mutate st v) rest
end

/-- A span target: the sibling list holding the span markers, and the event
log. -/
structure RState where
  dom : List DN
  events : List Ev
deriving DecidableEq

mutual
/-- mutateRange of the unnamed part_002, same dispatch order as mutate; a
node is inserted before the end marker; a primitive first deletes the whole
span contents through the static range and then inserts exactly one freshly
created text node before the end marker (createTextNode is called even for
the empty string). -/
def mutateRange (r : DynamicRange) (st : RState) : RVal → RState
  | .nullV => st
  | .boolV _ => st
  | .nodeV n => ⟨insertBeforeL st.dom [DN.elemN n] r.endMark, st.events⟩
  | .primV s =>
    ⟨insertBeforeL (rangeDeleteContents st.dom r) [DN.textN s] r.endMark, st.events⟩
  | .objV (some l) _ _ _ => mutateRangeList r st l
  | .objV none (some l) _ _ => mutateRangeList r st l
  | .objV none none (some v) _ => mutateRange r st v
  | .objV none none none (some f) => mutateRange r ⟨st.dom, st.events ++ [Ev.invoked]⟩ f
  | .objV none none none none => ⟨st.dom, st.events ++ [Ev.errLog]⟩

/-- The for-of loop bodies of mutateRange. -/
def mutateRangeList (r : DynamicRange) (st : RState) : List RVal → RState
  | [] => st
  | v :: rest => mutateRangeList r (mutateRange r st v) rest
end

/-!
The data getter of list() and the function case of processList, part_002:
get data() returns data.map(x => x.value), and a function-valued ListAction
is applied to action(data.map(x => x.value)).  Array.prototype.map allocates
a fresh array each time, so the returned array is a new heap object distinct
from the internal record array and from every previously returned one; the
caller owns it and may mutate it freely (the bundled demo mutates it in place
with reverse and a shuffle before feeding it back through assign).  The
allocation is modelled with an explicit store of handed-out arrays: a read
appends a fresh cell holding the projected values and returns its index, and
a caller-side mutation overwrites a cell; the reconciler state is a separate
component that cell writes cannot reach.
-/

/-- The reconciler state together with the arrays that have been handed out
to callers, each addressed by the index at which it was allocated. -/
structure Snapshots (V : Type) where
  st : ListState V
  cells : List (List V)

/-- The projection the two source expressions compute:
data.map(x => x.value). -/
def snapshotOf {V : Type} (st : ListState V) : List V :=
  st.data.map fun p => p.value

/-- get data() of list(): allocate a fresh array holding the current values
and hand its reference to the caller. -/
def dataGetter {V : Type} (w : Snapshots V) : Snapshots V × Nat :=
  (⟨w.st, w.cells ++ [snapshotOf w.st]⟩, w.cells.length)

/-- The argument array built by processList for a function-valued ListAction:
action(data.map(x => x.value)), again a fresh allocation. -/
def listActionArg {V : Type} (w : Snapshots V) : Snapshots V × Nat :=
  (⟨w.st, w.cells ++ [snapshotOf w.st]⟩, w.cells.length)

/-- A caller mutating, in place, an array it was handed (for example
reversing it): only that cell changes. -/
def writeCell {V : Type} (w : Snapshots V) (ref : Nat) (contents : List V) : Snapshots V :=
  ⟨w.st, w.cells.set ref contents⟩

theorem nextSibling_of_not_mem {dom : List DN} {x : DN} (h : x ∉ dom) :
    nextSibling dom x = none := by
  induction dom with
  | nil => rfl
  | cons a l ih =>
    simp only [List.mem_cons, not_or] at h
    simp [nextSibling, Ne.symm h.1, ih h.2]

theorem detachR_of_not_attached {dom : List DN} {r : DynamicRange}
    (h : ¬ attached dom r) : detachR dom r = none := by
  unfold attached at h
  unfold detachR
  have hns : nextSibling dom r.start = none := nextSibling_of_not_mem h
  simp [detachAux, hns]

/-- C2 counterexample: the claim says every mutating operation of a span
whose parentNode is null, detach included, raises no error and changes no
node.  On the concrete fully detached span with markers startM 1 / endM 1 and
an empty parent list, detach walks past the null nextSibling of its start
marker and dereferences null (modelled as the none result), so detach does
raise an error there and the claim as stated is false. -/
theorem detached_detach_crashes :
    ¬ attached [] ⟨DN.startM 1, DN.endM 1⟩ ∧
    detachR [] ⟨DN.startM 1, DN.endM 1⟩ = none := by
  constructor
  · simp [attached]
  · rfl

/-- C2 amended: for every span whose parentNode is null, the mutating
operations insertBefore, appendChild, replace and delete are no-ops (they
raise no error and leave every node unchanged); detach is the exception: it
dereferences a null sibling and raises a TypeError instead of being a no-op. -/
theorem detached_span_mutations_are_noops (dom : List DN) (r : DynamicRange)
    (node : DN) (child : Option DN) (h : ¬ attached dom r) :
    insertBeforeOp dom r node child = dom ∧
    appendChildOp dom r node = dom ∧
    replaceOp dom r node = dom ∧
    deleteOp dom r = dom ∧
    detachR dom r = none := by
  refine ⟨?_, ?_, ?_, ?_, detachR_of_not_attached h⟩ <;>
    simp [insertBeforeOp, appendChildOp, replaceOp, deleteOp, h]

/-- C2 witness: the amended statement instantiated on a concrete parent-less
span with a content insertion attempt. -/
theorem detached_span_mutations_are_noops_witness :
    ¬ attached [DN.elemN 9] ⟨DN.startM 1, DN.endM 1⟩ ∧
    (insertBeforeOp [DN.elemN 9] ⟨DN.startM 1, DN.endM 1⟩ (DN.elemN 5) none = [DN.elemN 9] ∧
     appendChildOp [DN.elemN 9] ⟨DN.startM 1, DN.endM 1⟩ (DN.elemN 5) = [DN.elemN 9] ∧
     replaceOp [DN.elemN 9] ⟨DN.startM 1, DN.endM 1⟩ (DN.elemN 5) = [DN.elemN 9] ∧
     deleteOp [DN.elemN 9] ⟨DN.startM 1, DN.endM 1⟩ = [DN.elemN 9] ∧
     detachR [DN.elemN 9] ⟨DN.startM 1, DN.endM 1⟩ = none) :=
  ⟨by decide,
   detached_span_mutations_are_noops [DN.elemN 9] ⟨DN.startM 1, DN.endM 1⟩
     (DN.elemN 5) none (by decide)⟩

/-- C5: on the empty attached span (markers adjacent) the childNodes getter
of src/range.ts returns null and on a non-empty span it returns the node
after start, as the claim states; the variant copy in part_001 swaps the two
branches, returning the end marker itself for an empty span and null for a
non-empty one, contradicting the claim at both inputs. -/
theorem firstChild_variant_diverges :
    firstChild [DN.startM 1, DN.endM 1] ⟨DN.startM 1, DN.endM 1⟩ = none ∧
    firstChildV [DN.startM 1, DN.endM 1] ⟨DN.startM 1, DN.endM 1⟩ = some (DN.endM 1) ∧
    firstChild [DN.startM 1, DN.elemN 7, DN.endM 1] ⟨DN.startM 1, DN.endM 1⟩ =
      some (DN.elemN 7) ∧
    firstChildV [DN.startM 1, DN.elemN 7, DN.endM 1] ⟨DN.startM 1, DN.endM 1⟩ = none := by
  decide

/-- C4: on a concrete attached span holding two content nodes, the childNodes
walk of src/range.ts returns exactly the nodes strictly between the markers in
document order (matching the specification-side nodesBetween), while the
variant copy in part_001, whose loop breaks after one iteration, returns only
the first of them, contradicting the claim. -/
theorem childNodes_variant_diverges :
    childNodes [DN.startM 1, DN.elemN 7, DN.elemN 8, DN.endM 1] ⟨DN.startM 1, DN.endM 1⟩ =
      [DN.elemN 7, DN.elemN 8] ∧
    nodesBetween [DN.startM 1, DN.elemN 7, DN.elemN 8, DN.endM 1] ⟨DN.startM 1, DN.endM 1⟩ =
      [DN.elemN 7, DN.elemN 8] ∧
    childNodesV [DN.startM 1, DN.elemN 7, DN.elemN 8, DN.endM 1] ⟨DN.startM 1, DN.endM 1⟩ =
      [some (DN.elemN 7)] ∧
    childNodesV [DN.startM 1, DN.elemN 7, DN.elemN 8, DN.endM 1] ⟨DN.startM 1, DN.endM 1⟩ ≠
      (childNodes [DN.startM 1, DN.elemN 7, DN.elemN 8, DN.endM 1]
        ⟨DN.startM 1, DN.endM 1⟩).map some := by
  decide

/-- C1: rendering the keyed list [1, 2, 3] creates the spans with identities
1, 2, 3, one per key; assign [3, 1, 2] with the same value references leaves
each key paired with the very same span identity it was created with, mints
no new span (nextId is unchanged), and the sibling list shows the span of key
3 bodily moved (detached and reinserted) in front of the span of key 1. -/
theorem assign_reorder_preserves_span_identity :
    ((assignData idRenderer [1, 2, 3] (initState Nat)).data.map fun p => (p.value, p.rangeId))
        = [(1, 1), (2, 2), (3, 3)] ∧
    ((assignData idRenderer [3, 1, 2] (assignData idRenderer [1, 2, 3] (initState Nat))).data.map
        fun p => (p.value, p.rangeId)) = [(3, 3), (1, 1), (2, 2)] ∧
    (assignData idRenderer [3, 1, 2] (assignData idRenderer [1, 2, 3] (initState Nat))).nextId
        = (assignData idRenderer [1, 2, 3] (initState Nat)).nextId ∧
    (assignData idRenderer [3, 1, 2] (assignData idRenderer [1, 2, 3] (initState Nat))).dom
        = [rootStart, DN.startM 3, DN.endM 3, DN.startM 1, DN.endM 1,
           DN.startM 2, DN.endM 2, rootEnd] := by
  decide

theorem scanData_eq_none {V K : Type} [DecidableEq K] (keyOf : V → K) (k : K) :
    ∀ (l : List (Pack V)) (i : Nat), (∀ p ∈ l, keyOf p.value ≠ k) →
      scanData keyOf k l i = none := by
  intro l
  induction l with
  | nil => intro i _; rfl
  | cons p rest ih =>
    intro i h
    have hp : keyOf p.value ≠ k := h p (List.mem_cons_self p rest)
    simp only [scanData, if_neg hp]
    exact ih (i + 1) fun q hq => h q (List.mem_cons_of_mem p hq)

/-- C3: during assign, the key of the target value at index i is looked up in
the current record sequence only from index i on: whenever no record at an
index of at least i carries that key (records at smaller indices may well
carry it), the iteration for index i takes the not-found branch and creates a
fresh Item Record with a freshly minted Span, spliced in at position i. -/
theorem assign_scan_starts_at_input_index {V K : Type} [DecidableEq V] [DecidableEq K]
    (R : RendererM V K) (i : Nat) (item : V) (s : ListState V)
    (h : ∀ p ∈ s.data.drop i, R.key p.value ≠ R.key item) :
    assignIter R i item s =
      ⟨insIdxAll s.data i [⟨s.nextId, item⟩],
       insertBeforeL s.dom [DN.startM s.nextId, DN.endM s.nextId] (pivotOf s i),
       s.nextId + 1, s.updates⟩ := by
  unfold assignIter
  rw [scanData_eq_none R.key (R.key item) (s.data.drop i) i h]
  rfl

/-- C3 witness: the current records are [record with key 5 at index 0]; at
input index 1 the same key 5 occurs only at index 0, strictly before the scan
start, so a new record with the fresh span identity 2 is created at index 1
even though a record with that key exists earlier in the sequence. -/
theorem assign_scan_starts_at_input_index_witness :
    (∀ p ∈ ([⟨1, 5⟩] : List (Pack Nat)).drop 1, idRenderer.key p.value ≠ idRenderer.key 5) ∧
    idRenderer.key (Pack.mk 1 5).value = idRenderer.key 5 ∧
    assignIter idRenderer 1 5
        ⟨[⟨1, 5⟩], [rootStart, DN.startM 1, DN.endM 1, rootEnd], 2, []⟩ =
      ⟨[⟨1, 5⟩, ⟨2, 5⟩],
       [rootStart, DN.startM 1, DN.endM 1, DN.startM 2, DN.endM 2, rootEnd], 3, []⟩ := by
  refine ⟨by decide, by decide, ?_⟩
  rw [assign_scan_starts_at_input_index idRenderer 1 5
    ⟨[⟨1, 5⟩], [rootStart, DN.startM 1, DN.endM 1, rootEnd], 2, []⟩ (by decide)]
  decide

theorem packsFrom_map_value {V : Type} : ∀ (vs : List V) (n : Nat),
    (packsFrom n vs).map (fun p => p.value) = vs := by
  intro vs
  induction vs with
  | nil => intro n; rfl
  | cons v rest ih => intro n; simp [packsFrom, ih]

theorem appendTail_spec {V : Type} : ∀ (vs : List V) (s : ListState V),
    (appendTail s vs).data = s.data ++ packsFrom s.nextId vs ∧
    (appendTail s vs).nextId = s.nextId + vs.length ∧
    (appendTail s vs).updates = s.updates := by
  intro vs
  induction vs with
  | nil => intro s; simp [appendTail, packsFrom]
  | cons v rest ih =>
    intro s
    have h := ih ⟨s.data ++ [⟨s.nextId, v⟩], insertBeforeL s.dom
      [DN.startM s.nextId, DN.endM s.nextId] rootEnd, s.nextId + 1, s.updates⟩
    simp only [appendTail, insertAtM] at h ⊢
    refine ⟨?_, ?_, h.2.2⟩
    · rw [h.1]; simp [packsFrom]
    · rw [h.2.1]; simp [List.length_cons]; omega

/-- C9: appendUnique appends, at the tail and in input order, exactly the
input values whose key differs from the key of every currently held record
(the filter consulting only the keys held before the call); the records that
were already held are untouched, span identities included; a batch whose keys
are all already present leaves the whole state unchanged; and concretely,
from the rendered list [1, 2], appendUnique [1, 3] yields the values
[1, 2, 3] with 1 not duplicated, records 1 and 2 keeping their spans. -/
theorem appendUnique_appends_fresh_keys {V K : Type} [DecidableEq K]
    (R : RendererM V K) (s : ListState V) (vs : List V) :
    ((appendUnique R vs s).data.map (fun p => p.value) =
      s.data.map (fun p => p.value) ++
        vs.filter (fun x => s.data.all fun y => decide (R.key y.value ≠ R.key x))) ∧
    ((appendUnique R vs s).data.take s.data.length = s.data) ∧
    ((∀ x ∈ vs, ∃ y ∈ s.data, R.key y.value = R.key x) → appendUnique R vs s = s) ∧
    ((appendUnique idRenderer [1, 3] (assignData idRenderer [1, 2] (initState Nat))).data.map
        (fun p => (p.value, p.rangeId)) = [(1, 1), (2, 2), (3, 3)]) := by
  have hTail := appendTail_spec
    (vs.filter (fun x => s.data.all fun y => decide (R.key y.value ≠ R.key x))) s
  refine ⟨?_, ?_, ?_, by decide⟩
  · show (appendTail s _).data.map _ = _
    rw [hTail.1]
    simp [packsFrom_map_value]
  · show (appendTail s _).data.take _ = _
    rw [hTail.1, List.take_left]
  · intro hAll
    show appendTail s _ = s
    have hNil : vs.filter (fun x => s.data.all fun y => decide (R.key y.value ≠ R.key x)) = [] := by
      refine List.filter_eq_nil_iff.mpr ?_
      intro a ha
      obtain ⟨y, hy, hk⟩ := hAll a ha
      simp only [List.all_eq_true, decide_eq_true_eq, not_forall]
      exact ⟨y, hy, by simp [hk]⟩
    rw [hNil]
    rfl

/-- C9 witness: on the rendered list [1, 2], the batch [1, 2] has every key
already present, so appendUnique leaves the state unchanged, as follows by
applying the appendUnique theorem at this concrete input. -/
theorem appendUnique_appends_fresh_keys_witness :
    (∀ x ∈ [1, 2], ∃ y ∈ (assignData idRenderer [1, 2] (initState Nat)).data,
        idRenderer.key y.value = idRenderer.key x) ∧
    appendUnique idRenderer [1, 2] (assignData idRenderer [1, 2] (initState Nat)) =
      assignData idRenderer [1, 2] (initState Nat) :=
  ⟨by decide,
   (appendUnique_appends_fresh_keys idRenderer
      (assignData idRenderer [1, 2] (initState Nat)) [1, 2]).2.2.1 (by decide)⟩

theorem set_len_append {α : Type} : ∀ (l₁ : List α) (a : α) (l₂ : List α) (b : α),
    (l₁ ++ a :: l₂).set l₁.length b = l₁ ++ b :: l₂ := by
  intro l₁
  induction l₁ with
  | nil => intro a l₂ b; rfl
  | cons x l ih => intro a l₂ b; simp [List.set, ih]

theorem assignLoop_update_run {V K : Type} [DecidableEq V] [DecidableEq K]
    (R : RendererM V K) (hU : R.hasUpdate = true) :
    ∀ (vs : List V) (done rest : List (Pack V)) (dom : List DN) (nid : Nat)
      (ups : List (Nat × V × V)),
      rest.length = vs.length →
      (∀ q ∈ rest.zip vs, R.key q.1.value = R.key q.2 ∧ q.1.value ≠ q.2) →
      assignLoop R vs done.length ⟨done ++ rest, dom, nid, ups⟩ =
        ⟨done ++ List.zipWith (fun p x => ⟨p.rangeId, x⟩) rest vs, dom, nid,
         ups ++ List.zipWith (fun p x => (p.rangeId, x, p.value)) rest vs⟩ := by
  intro vs
  induction vs with
  | nil =>
    intro done rest dom nid ups hLen _
    have hrest : rest = [] := List.length_eq_zero.mp hLen
    subst hrest
    simp [assignLoop, deleteSpans, List.take_left, List.drop_left]
  | cons v vtl ih =>
    intro done rest dom nid ups hLen hPt
    match rest with
    | [] => simp at hLen
    | p :: rtl =>
      have hq : R.key p.value = R.key v ∧ p.value ≠ v :=
        hPt (p, v) (by simp [List.zip_cons_cons])
      have hscan : scanData R.key (R.key v) ((done ++ p :: rtl).drop done.length)
          done.length = some (done.length, p) := by
        rw [List.drop_left]
        simp [scanData, hq.1]
      show assignLoop R vtl (done.length + 1)
          (assignIter R done.length v ⟨done ++ p :: rtl, dom, nid, ups⟩) = _
      rw [show assignIter R done.length v ⟨done ++ p :: rtl, dom, nid, ups⟩ =
          ⟨(done ++ p :: rtl).set done.length ⟨p.rangeId, v⟩, dom, nid,
           ups ++ [(p.rangeId, v, p.value)]⟩ by
        unfold assignIter
        rw [hscan]
        have hne : v ≠ p.value := fun h => hq.2 h.symm
        simp [hne, hU]]
      rw [set_len_append]
      have hstep := ih (done ++ [(⟨p.rangeId, v⟩ : Pack V)]) rtl dom nid
        (ups ++ [(p.rangeId, v, p.value)])
        (by simpa using Nat.succ_injective (by simpa using hLen))
        (fun q hqm => hPt q (by simp [List.zip_cons_cons, hqm]))
      rw [List.length_append, List.length_singleton] at hstep
      rw [show done ++ ⟨p.rangeId, v⟩ :: rtl = (done ++ [(⟨p.rangeId, v⟩ : Pack V)]) ++ rtl by
        simp]
      rw [hstep]
      simp [List.zipWith]

/-- C6: when assign receives target values that pairwise share the key of the
current record at the same index but differ from it as references, and the
renderer supplies an update function, each record keeps its own span (same
identity, no new span minted, sibling list untouched, so nothing is deleted,
recreated or moved), its stored value is replaced by the new one, and
renderer.update is invoked once per record, resolved against that record own
span with the (new, old) value pair, in input order. -/
theorem assign_same_key_invokes_update_in_place {V K : Type} [DecidableEq V]
    [DecidableEq K] (R : RendererM V K) (s : ListState V) (vs : List V)
    (hU : R.hasUpdate = true) (hLen : s.data.length = vs.length)
    (hPt : ∀ q ∈ s.data.zip vs, R.key q.1.value = R.key q.2 ∧ q.1.value ≠ q.2) :
    assignData R vs s =
      ⟨List.zipWith (fun p x => ⟨p.rangeId, x⟩) s.data vs, s.dom, s.nextId,
       s.updates ++ List.zipWith (fun p x => (p.rangeId, x, p.value)) s.data vs⟩ := by
  have h := assignLoop_update_run R hU vs [] s.data s.dom s.nextId s.updates hLen hPt
  simpa [assignData] using h

/-- C6 witness: values 10 and 20 rendered with the tens-digit renderer carry
spans 1 and 2; assign [11, 21] (same keys, new references) leaves both spans
and the whole sibling list in place, stores 11 and 21, and logs the update
invocations (span 1, 11, 10) and (span 2, 21, 20). -/
theorem assign_same_key_invokes_update_in_place_witness :
    divRenderer.hasUpdate = true ∧
    (assignData divRenderer [10, 20] (initState Nat)).data.length = [11, 21].length ∧
    (∀ q ∈ (assignData divRenderer [10, 20] (initState Nat)).data.zip [11, 21],
        divRenderer.key q.1.value = divRenderer.key q.2 ∧ q.1.value ≠ q.2) ∧
    assignData divRenderer [11, 21] (assignData divRenderer [10, 20] (initState Nat)) =
      ⟨[⟨1, 11⟩, ⟨2, 21⟩],
       [rootStart, DN.startM 1, DN.endM 1, DN.startM 2, DN.endM 2, rootEnd], 3,
       [(1, 11, 10), (2, 21, 20)]⟩ := by
  refine ⟨rfl, by decide, by decide, ?_⟩
  rw [assign_same_key_invokes_update_in_place divRenderer
    (assignData divRenderer [10, 20] (initState Nat)) [11, 21] rfl (by decide) (by decide)]
  decide

/-- C7: both resolvers dispatch on the first matching shape of the fixed
precedence order: a value carrying a synchronous iterator is consumed as a
synchronous sequence whatever other capabilities (async iterator, then,
callable) it also carries; an async iterable wins over thenable and callable;
a callable value carrying a then member is consumed as a thenable, never
invoked as a function; and concretely a callable thenable resolves its
settled value with no invocation event, while a bare callable is invoked. -/
theorem resolver_precedence_first_match_wins :
    (∀ (st : NState) (l : List RVal) (a : Option (List RVal)) (t f : Option RVal),
      mutate st (.objV (some l) a t f) = mutateList st l) ∧
    (∀ (st : NState) (l : List RVal) (t f : Option RVal),
      mutate st (.objV none (some l) t f) = mutateList st l) ∧
    (∀ (st : NState) (u f : RVal),
      mutate st (.objV none none (some u) (some f)) = mutate st u) ∧
    (∀ (r : DynamicRange) (st : RState) (l : List RVal) (a : Option (List RVal))
      (t f : Option RVal), mutateRange r st (.objV (some l) a t f) = mutateRangeList r st l) ∧
    (∀ (r : DynamicRange) (st : RState) (l : List RVal) (t f : Option RVal),
      mutateRange r st (.objV none (some l) t f) = mutateRangeList r st l) ∧
    (∀ (r : DynamicRange) (st : RState) (u f : RVal),
      mutateRange r st (.objV none none (some u) (some f)) = mutateRange r st u) ∧
    mutate ⟨[], []⟩ (.objV none none (some (.primV "a")) (some (.primV "b"))) =
      ⟨[DN.textN "a"], []⟩ ∧
    mutate ⟨[], []⟩ (.objV none none none (some (.primV "b"))) =
      ⟨[DN.textN "b"], [Ev.invoked]⟩ := by
  refine ⟨fun st l a t f => rfl, fun st l t f => rfl, fun st u f => rfl,
    fun r st l a t f => rfl, fun r st l t f => rfl, fun r st u f => rfl, ?_, ?_⟩ <;> rfl

theorem idxOf_append_of_not_mem {x : DN} : ∀ {p : List DN}, x ∉ p → ∀ (l : List DN),
    idxOf (p ++ l) x = p.length + idxOf l x := by
  intro p
  induction p with
  | nil => intro _ l; simp
  | cons a q ih =>
    intro h l
    simp only [List.mem_cons, not_or] at h
    have h1 : ¬ (a = x) := fun hh => h.1 hh.symm
    rw [List.cons_append]
    show (if a = x then 0 else idxOf (q ++ l) x + 1) = (a :: q).length + idxOf l x
    rw [if_neg h1, ih h.2 l, List.length_cons]
    omega

theorem insertBeforeL_append {ref : DN} : ∀ {p : List DN}, ref ∉ p →
    ∀ (new l : List DN), insertBeforeL (p ++ ref :: l) new ref = p ++ (new ++ (ref :: l)) := by
  intro p
  induction p with
  | nil => intro _ new l; simp [insertBeforeL]
  | cons a q ih =>
    intro h new l
    simp only [List.mem_cons, not_or] at h
    have h1 : ¬ (a = ref) := fun hh => h.1 hh.symm
    rw [List.cons_append]
    show (if a = ref then new ++ a :: (q ++ ref :: l)
          else a :: insertBeforeL (q ++ ref :: l) new ref) = (a :: q) ++ (new ++ (ref :: l))
    rw [if_neg h1, ih h.2 new l, List.cons_append]

theorem take_succ_len_append : ∀ (p : List DN) (a : DN) (l : List DN),
    (p ++ a :: l).take (p.length + 1) = p ++ [a] := by
  intro p
  induction p with
  | nil => intro a l; simp
  | cons x q ih => intro a l; simp [List.take, ih]

/-- Effect of ctx.static.deleteContents() on a well-formed attached span:
everything strictly between the two markers disappears, everything else is
untouched. -/
theorem rangeDeleteContents_decomp (pre mid post : List DN) (r : DynamicRange)
    (hs : r.start ∉ pre) (he1 : r.endMark ∉ pre) (he2 : r.endMark ≠ r.start)
    (he3 : r.endMark ∉ mid) :
    rangeDeleteContents (pre ++ (r.start :: (mid ++ (r.endMark :: post)))) r =
      pre ++ (r.start :: (r.endMark :: post)) := by
  unfold rangeDeleteContents
  have hidxs : idxOf (pre ++ (r.start :: (mid ++ (r.endMark :: post)))) r.start =
      pre.length := by
    rw [idxOf_append_of_not_mem hs]
    show pre.length + (if r.start = r.start then 0 else _) = pre.length
    rw [if_pos rfl]
    omega
  have hidxe : idxOf (pre ++ (r.start :: (mid ++ (r.endMark :: post)))) r.endMark =
      pre.length + 1 + mid.length := by
    rw [idxOf_append_of_not_mem he1]
    show pre.length + (if r.start = r.endMark then 0
      else idxOf (mid ++ (r.endMark :: post)) r.endMark + 1) = pre.length + 1 + mid.length
    rw [if_neg (fun hh => he2 hh.symm), idxOf_append_of_not_mem he3]
    show pre.length + (mid.length + (if r.endMark = r.endMark then 0 else _) + 1) = _
    rw [if_pos rfl]
    omega
  rw [hidxs, hidxe, take_succ_len_append]
  have hshape : pre ++ (r.start :: (mid ++ (r.endMark :: post))) =
      (pre ++ (r.start :: mid)) ++ (r.endMark :: post) := by simp
  have hlen : pre.length + 1 + mid.length = (pre ++ (r.start :: mid)).length := by
    rw [List.length_append, List.length_cons]
    omega
  rw [hshape, hlen, List.drop_left]
  simp

/-- C8: resolving a primitive replaces instead of appending.  Against a plain
node target the whole text content is set, independently of whatever children
the target held before; against a span target, the span contents are deleted
first and then exactly one new text node is inserted immediately before the
end marker, leaving everything outside the markers untouched. -/
theorem primitive_resolution_replaces (st : NState) (s : String)
    (pre mid post : List DN) (r : DynamicRange) (ev : List Ev)
    (hs : r.start ∉ pre) (he1 : r.endMark ∉ pre) (he2 : r.endMark ≠ r.start)
    (he3 : r.endMark ∉ mid) :
    mutate st (.primV s) = ⟨setTextContent s, st.events⟩ ∧
    mutateRange r ⟨pre ++ (r.start :: (mid ++ (r.endMark :: post))), ev⟩ (.primV s) =
      ⟨pre ++ (r.start :: (DN.textN s :: (r.endMark :: post))), ev⟩ := by
  refine ⟨rfl, ?_⟩
  show RState.mk
    (insertBeforeL (rangeDeleteContents (pre ++ (r.start :: (mid ++ (r.endMark :: post)))) r)
      [DN.textN s] r.endMark) ev = _
  rw [rangeDeleteContents_decomp pre mid post r hs he1 he2 he3]
  have hmem : r.endMark ∉ pre ++ [r.start] := by
    simp only [List.mem_append, List.mem_singleton, not_or]
    exact ⟨he1, he2⟩
  have hins := insertBeforeL_append hmem [DN.textN s] post
  have hshape : pre ++ (r.start :: (r.endMark :: post)) =
      (pre ++ [r.start]) ++ (r.endMark :: post) := by simp
  rw [hshape, hins]
  simp

/-- C8 witness: a span holding an old text node and an element between its
markers, with a sibling element on each side, resolved against the primitive
hi: the old contents are gone, exactly one new text node sits between the
markers, the outside siblings are untouched; and the plain node target with
two children ends up with the single text node hi. -/
theorem primitive_resolution_replaces_witness :
    ((DynamicRange.mk (DN.startM 1) (DN.endM 1)).start ∉ [DN.elemN 1] ∧
     (DynamicRange.mk (DN.startM 1) (DN.endM 1)).endMark ∉ [DN.elemN 1] ∧
     (DynamicRange.mk (DN.startM 1) (DN.endM 1)).endMark ≠ DN.startM 1 ∧
     (DynamicRange.mk (DN.startM 1) (DN.endM 1)).endMark ∉ [DN.textN "old", DN.elemN 2]) ∧
    mutate ⟨[DN.elemN 4, DN.textN "x"], []⟩ (.primV "hi") = ⟨[DN.textN "hi"], []⟩ ∧
    mutateRange ⟨DN.startM 1, DN.endM 1⟩
        ⟨[DN.elemN 1] ++ (DN.startM 1 :: ([DN.textN "old", DN.elemN 2] ++
          (DN.endM 1 :: [DN.elemN 3]))), []⟩ (.primV "hi") =
      ⟨[DN.elemN 1] ++ (DN.startM 1 :: (DN.textN "hi" :: (DN.endM 1 :: [DN.elemN 3]))), []⟩ :=
  ⟨⟨by decide, by decide, by decide, by decide⟩,
   primitive_resolution_replaces ⟨[DN.elemN 4, DN.textN "x"], []⟩ "hi"
     [DN.elemN 1] [DN.textN "old", DN.elemN 2] [DN.elemN 3]
     ⟨DN.startM 1, DN.endM 1⟩ [] (by decide) (by decide) (by decide) (by decide)⟩

/-- C10: reading the data property neither changes the record sequence nor
the rendered nodes (the reconciler state is returned untouched); the array it
returns is a fresh cell holding exactly the current values, every previously
handed array being untouched; overwriting the returned cell with anything,
for example any in-place mutation of the returned array, leaves the
reconciler state unchanged; and the value list passed to a function-valued
ListAction is the same kind of independent snapshot. -/
theorem data_getter_returns_fresh_snapshot {V : Type} (w : Snapshots V)
    (f : List V → List V) :
    (dataGetter w).1.st = w.st ∧
    (dataGetter w).1.cells[(dataGetter w).2]? = some (snapshotOf w.st) ∧
    (∀ i, i < w.cells.length → (dataGetter w).1.cells[i]? = w.cells[i]?) ∧
    (writeCell (dataGetter w).1 (dataGetter w).2 (f (snapshotOf w.st))).st = w.st ∧
    (listActionArg w).1.st = w.st ∧
    (listActionArg w).1.cells[(listActionArg w).2]? = some (snapshotOf w.st) := by
  refine ⟨rfl, ?_, ?_, rfl, rfl, ?_⟩
  · show (w.cells ++ [snapshotOf w.st])[w.cells.length]? = some (snapshotOf w.st)
    exact List.getElem?_concat_length w.cells (snapshotOf w.st)
  · intro i hi
    show (w.cells ++ [snapshotOf w.st])[i]? = w.cells[i]?
    exact List.getElem?_append_left hi
  · show (w.cells ++ [snapshotOf w.st])[w.cells.length]? = some (snapshotOf w.st)
    exact List.getElem?_concat_length w.cells (snapshotOf w.st)

/-- C10 witness: the fresh-snapshot theorem applied to the rendered list
[1, 2] with the caller reversing the returned array, discharging the bounded
index hypothesis at index 0. -/
theorem data_getter_returns_fresh_snapshot_witness :
    (0 < (Snapshots.mk (assignData idRenderer [1, 2] (initState Nat)) [[7]]).cells.length) ∧
    (dataGetter ⟨assignData idRenderer [1, 2] (initState Nat), [[7]]⟩).1.cells[0]? =
      (Snapshots.mk (assignData idRenderer [1, 2] (initState Nat)) [[7]]).cells[0]? ∧
    (writeCell (dataGetter ⟨assignData idRenderer [1, 2] (initState Nat), [[7]]⟩).1
        (dataGetter ⟨assignData idRenderer [1, 2] (initState Nat), [[7]]⟩).2
        (List.reverse (snapshotOf (assignData idRenderer [1, 2] (initState Nat))))).st =
      assignData idRenderer [1, 2] (initState Nat) :=
  ⟨by decide,
   ((data_getter_returns_fresh_snapshot
      ⟨assignData idRenderer [1, 2] (initState Nat), [[7]]⟩ List.reverse).2.2.1 0 (by decide)),
   (data_getter_returns_fresh_snapshot
      ⟨assignData idRenderer [1, 2] (initState Nat), [[7]]⟩ List.reverse).2.2.2.1⟩
